import Mathlib

/-!
Shallow embedding of the CostPilot repository (src/server.py, src/auto_logger.py)
for checking its natural-language specification.

Numbers that are Python ints/floats are modelled as exact rationals (ℚ); all
arithmetic appearing in the modelled code paths is exact at the inputs the
claims exercise, so ℚ is a faithful carrier.  Python `int(x)` truncates toward
zero and `round(x, n)` rounds half to even; both are modelled explicitly below.
-/

namespace CostPilot

/-- Python `int(x)` on a float/rational: truncation toward zero. -/
def pyTrunc (q : ℚ) : Int := if q < 0 then -⌊-q⌋ else ⌊q⌋

/-- Python `round(x, n)`: round half to even at `n` decimal digits. -/
def pyRound (q : ℚ) (n : Nat) : ℚ :=
  let scaled := q * (10 ^ n : ℚ)
  let f := ⌊scaled⌋
  let r := scaled - (f : ℚ)
  let rd : Int :=
    if r < 1/2 then f
    else if 1/2 < r then f + 1
    else if f % 2 = 0 then f else f + 1
  (rd : ℚ) / (10 ^ n : ℚ)

/-- Insertion of one element into a sorted list of rationals. -/
def insertQ (x : ℚ) : List ℚ → List ℚ
  | [] => [x]
  | y :: ys => if x ≤ y then x :: y :: ys else y :: insertQ x ys

/-- Python `sorted(data)` on a list of numbers (ascending order; for a list of
plain rationals the sorted result is unique, so insertion sort models the
builtin exactly). -/
def sortQ (l : List ℚ) : List ℚ := l.foldr insertQ []

/-- Python list indexing `s[i]` for a non-negative integer index (the only
regime `percentile` exercises for percentiles in [0, 100]); out-of-range
indices return 0 rather than raising. -/
def pyIndex : List ℚ → Int → ℚ
  | [], _ => 0
  | x :: xs, i => if i = 0 then x else pyIndex xs (i - 1)

/-- `percentile(data, pct)` from src/server.py lines 396-402:
linear interpolation on the sorted values; `int(k)` truncates toward zero. -/
def percentile (data : List ℚ) (pct : ℚ) : ℚ :=
  if data = [] then 0
  else
    let s := sortQ data
    let k : ℚ := ((s.length : ℚ) - 1) * pct / 100
    let lo : Int := pyTrunc k
    let hi : Int := min (lo + 1) ((s.length : Int) - 1)
    pyIndex s lo + (pyIndex s hi - pyIndex s lo) * (k - (lo : ℚ))

/-- `linear_regression(xs, ys)` from src/server.py lines 405-419:
simple least-squares fit returning `(slope, intercept)`. -/
def linear_regression (xs ys : List ℚ) : ℚ × ℚ :=
  let n := xs.length
  if n < 2 then (0, ys.headD 0)
  else
    let sx := xs.sum
    let sy := ys.sum
    let sxy := (List.zipWith (fun x y => x * y) xs ys).sum
    let sxx := (xs.map (fun x => x * x)).sum
    let denom : ℚ := (n : ℚ) * sxx - sx * sx
    if denom = 0 then (0, sy / (n : ℚ))
    else
      let slope := ((n : ℚ) * sxy - sx * sy) / denom
      (slope, (sy - slope * sx) / (n : ℚ))

/-- The 3-day forecast from src/server.py lines 795-802: regress the 7
weekly-chart daily totals on x = 0..6 and emit `{day, cost}` pairs for the
next 3 days, each cost `max(0, round(slope*(7+i)+intercept, 4))`. -/
def forecast_3d (weekly : List ℚ) : List (Nat × ℚ) :=
  let xs := (List.range 7).map (fun i => (i : ℚ))
  let sl := linear_regression xs weekly
  (List.range 3).map
    (fun i => (i + 1, max 0 (pyRound (sl.1 * ((7 : ℚ) + (i : ℚ)) + sl.2) 4)))

/-- Severity deduction table from src/server.py line 1555:
`deductions = {"high": 20, "medium": 10, "low": 5}`, looked up with
`.get(sev, 0)`. -/
def severity_deduction (s : String) : Int :=
  if s = "high" then 20 else if s = "medium" then 10 else if s = "low" then 5 else 0

/-- `score = max(0, 100 - sum(deductions.get(r["severity"], 0) for r in rules))`
from src/server.py line 1556, as a function of the triggered rules'
severities. -/
def compute_efficiency_score (sevs : List String) : Int :=
  max 0 (100 - (sevs.map severity_deduction).sum)

/-- Letter-grade mapping from src/server.py lines 1557-1561. -/
def efficiency_grade (score : Int) : String :=
  if score ≥ 90 then "A"
  else if score ≥ 75 then "B"
  else if score ≥ 60 then "C"
  else if score ≥ 40 then "D"
  else "F"

/-! ## Event store, loading and bulk import (src/server.py) -/

/-- Identity content of an event for dedup purposes.  The source computes
`md5(f"{ev.get('ts','')}{ev.get('task','')}{ev.get('cost_usd','')}")[:12]`
(src/server.py lines 382-385); the hash of the serialized triple is modelled
as a collision-free function of the triple `(ts, task, cost_usd)` (the spec
itself relies on distinctness only "with overwhelming probability", and
missing fields serialize to the empty string, which `Option` captures). -/
abbrev EventId := Option ℚ × String × Option ℚ

/-- A JSON event object: each field optional, mirroring Python dict `.get`
access.  Only the fields read by the modelled code paths are carried. -/
structure Event where
  ts       : Option ℚ
  task     : Option String
  cost_usd : Option ℚ
  session  : Option String
  model    : Option String
  id       : Option EventId
  deriving DecidableEq, Repr

/-- `event_id(ev)` from src/server.py lines 382-385: stable hash of
`(ts, task, cost_usd)`; a missing `task` contributes the empty string. -/
def event_id (ev : Event) : EventId := (ev.ts, ev.task.getD "", ev.cost_usd)

/-- The "add stable id if missing" step of `load_events`
(src/server.py lines 349-351). -/
def add_id (ev : Event) : Event :=
  if ev.id = none then { ev with id := some (event_id ev) } else ev

/-- One line of the events store file as seen by `load_events`: blank,
unparseable JSON, or a parsed event object. -/
inductive StoreLine
  | blank
  | malformed
  | ok (ev : Event)
  deriving DecidableEq

/-- First-match lookup in an association list, modelling Python dict access
(dict keys are unique, so first match is the match). -/
def lookupS {α : Type} (k : String) : List (String × α) → Option α
  | [] => none
  | (a, b) :: r => if k = a then some b else lookupS k r

/-- Lowercase-hex-digit test for the `[0-9a-f]` character class. -/
def is_hex_lower (c : Char) : Bool :=
  ('0' ≤ c && c ≤ '9') || ('a' ≤ c && c ≤ 'f')

/-- The anonymous-label regex `^Session [0-9a-f]{8}$` of
`_enrich_session_labels` (src/server.py line 281), transcribed on the
character list. -/
def is_anon_session_label (s : String) : Bool :=
  match s.toList with
  | 'S' :: 'e' :: 's' :: 's' :: 'i' :: 'o' :: 'n' :: ' ' :: rest =>
    rest.length == 8 && rest.all is_hex_lower
  | _ => false

/-- Helper for substring containment: does `n` occur contiguously in the
second list? -/
def sub_aux (n : List Char) : List Char → Bool
  | [] => n.isEmpty
  | c :: cs => List.isPrefixOf n (c :: cs) || sub_aux n cs

/-- Substring containment, modelling Python `k in model_raw`. -/
def contains_sub (hay needle : String) : Bool :=
  sub_aux needle.toList hay.toList

/-- ASCII lowercase of one character (Python `.lower()` on the ASCII model
names involved here). -/
def char_lower (c : Char) : Char :=
  if 'A' ≤ c && c ≤ 'Z' then Char.ofNat (c.toNat + 32) else c

/-- ASCII lowercase of a string, modelling Python `str.lower()`. -/
def str_lower (s : String) : String := String.mk (s.toList.map char_lower)

/-- `_MODEL_SHORT` table of `_enrich_session_labels` in source dict order. -/
def model_short_names : List (String × String) :=
  [("sonnet", "Sonnet"), ("opus", "Opus"), ("haiku", "Haiku")]

/-- `next((v for k, v in _MODEL_SHORT.items() if k in model_raw), "AI")`
from src/server.py line 308 (the argument is already lowercased). -/
def model_short (model_raw : String) : String :=
  (((model_short_names.filter (fun p => contains_sub model_raw p.1)).head?).map
    Prod.snd).getD "AI"

/-- Python `min(events, key=lambda e: e.get("ts", 0))`: the first element with
minimal key. -/
def first_min_ts : List Event → Option Event
  | [] => none
  | e :: es =>
    some (es.foldl (fun acc x => if x.ts.getD 0 < acc.ts.getD 0 then x else acc) e)

/-- The replacement label computed for one anonymous group label in pass 2 of
`_enrich_session_labels` (src/server.py lines 302-315): label cache first,
else model-short plus a rendering of the group's earliest timestamp.  The
local-timezone `datetime` formatting `"{month} {day} {hour:02d}:00"` is an
effectful input and is modelled as the parameter `localFmt`. -/
def anon_new_label (localFmt : ℚ → String) (cache : List (String × String))
    (evs : List Event) (lbl : String) : String :=
  match lookupS lbl cache with
  | some nl => nl
  | none =>
    match first_min_ts (evs.filter (fun e => e.task.getD "" = lbl)) with
    | none => lbl
    | some first =>
      let ms := model_short (str_lower (first.model.getD ""))
      let tsv := first.ts.getD 0
      if tsv ≠ 0 then ms ++ " · " ++ localFmt tsv else lbl

/-- `_enrich_session_labels(events)` from src/server.py lines 272-319:
pass 1 applies spawn labels by session uuid (the external `sessions.json`
content is the parameter `spawn`); pass 2 rewrites every task matching the
anonymous pattern to its group's computed label (`cache` is the global
`_SESSION_LABEL_CACHE` at call time). -/
def enrich_session_labels (spawn cache : List (String × String))
    (localFmt : ℚ → String) (events : List Event) : List Event :=
  let p1 := events.map (fun e =>
    let u := e.session.getD ""
    if u ≠ "" then
      match lookupS u spawn with
      | some l => { e with task := some l }
      | none => e
    else e)
  p1.map (fun e =>
    let t := e.task.getD ""
    if is_anon_session_label t then
      let nl := anon_new_label localFmt cache p1 t
      if nl ≠ t then { e with task := some nl } else e
    else e)

/-- Main-file parsing loop of `load_events` (src/server.py lines 340-354):
collect parsed events (with stable ids added) in order and count unparseable
lines. -/
def parse_store_lines : List StoreLine → List Event × Nat
  | [] => ([], 0)
  | .blank :: ls => parse_store_lines ls
  | .malformed :: ls =>
    let r := parse_store_lines ls
    (r.1, r.2 + 1)
  | .ok ev :: ls =>
    let r := parse_store_lines ls
    (add_id ev :: r.1, r.2)

/-- Demo-file parsing loop of `load_events` (src/server.py lines 361-370):
parse errors are skipped silently and no ids are added. -/
def parse_demo_lines : List StoreLine → List Event
  | [] => []
  | .blank :: ls => parse_demo_lines ls
  | .malformed :: ls => parse_demo_lines ls
  | .ok ev :: ls => ev :: parse_demo_lines ls

/-- Result of `load_events`: the event list, the demo-mode flag, and the
malformed-line count it reports. -/
structure LoadResult where
  events : List Event
  demo_mode : Bool
  malformed_lines : Nat
  deriving DecidableEq, Repr

/-- `load_events` from src/server.py lines 322-379 on a cache-miss (the mtime
cache only short-circuits recomputation and is not modelled): parse the store
file if it exists, fall back to the bundled demo data when no event was
loaded, and enrich session labels in non-demo mode. -/
def load_events (fileExists : Bool) (fileLines : List StoreLine)
    (demoExists : Bool) (demoLines : List StoreLine)
    (spawn cache : List (String × String)) (localFmt : ℚ → String) : LoadResult :=
  let parsed := if fileExists then parse_store_lines fileLines else ([], 0)
  if parsed.1 = [] ∧ demoExists then
    { events := parse_demo_lines demoLines, demo_mode := true,
      malformed_lines := parsed.2 }
  else
    { events := enrich_session_labels spawn cache localFmt parsed.1,
      demo_mode := false, malformed_lines := parsed.2 }

/-- One line of a bulk-import request body after `splitlines`/`strip`
(src/server.py lines 2510-2522): blank, bad (unparseable JSON or a non-dict
value), or a parsed event object (a dict missing required keys is the
`event` case with `required_ok` false). -/
inductive ImportLine
  | blank
  | badLine
  | event (ev : Event)
  deriving DecidableEq

/-- `REQUIRED = {"ts", "task", "cost_usd"}; REQUIRED.issubset(ev.keys())`
from src/server.py lines 2505 and 2520. -/
def required_ok (ev : Event) : Bool :=
  ev.ts.isSome && ev.task.isSome && ev.cost_usd.isSome

/-- Counters and accepted events of one `_import_events` call. -/
structure ImportOutcome where
  imported : Nat
  skipped_malformed : Nat
  skipped_dupes : Nat
  new_events : List Event
  deriving DecidableEq, Repr

/-- The per-line loop of `_import_events` (src/server.py lines 2511-2529),
threading the `existing_ids` set (extended by each accepted event's id). -/
def import_loop : List ImportLine → List EventId → ImportOutcome
  | [], _ => ⟨0, 0, 0, []⟩
  | .blank :: ls, ids => import_loop ls ids
  | .badLine :: ls, ids =>
    let o := import_loop ls ids
    { o with skipped_malformed := o.skipped_malformed + 1 }
  | .event ev :: ls, ids =>
    if required_ok ev then
      let eid := event_id ev
      if eid ∈ ids then
        let o := import_loop ls ids
        { o with skipped_dupes := o.skipped_dupes + 1 }
      else
        let o := import_loop ls (eid :: ids)
        { o with imported := o.imported + 1,
                 new_events := { ev with id := some eid } :: o.new_events }
    else
      let o := import_loop ls ids
      { o with skipped_malformed := o.skipped_malformed + 1 }

/-- `_import_events(body)` from src/server.py lines 2501-2542: seed the id set
with the ids of the loaded events and run the per-line loop. -/
def import_events (loaded : List Event) (body : List ImportLine) : ImportOutcome :=
  import_loop body (loaded.map event_id)

/-- Store-file effect of `_import_events`: `write_events_locked(new_events)`
appends, and is invoked only `if new_events:` (src/server.py lines 2531-2532). -/
def import_store_after (store loaded : List Event) (body : List ImportLine) :
    List Event :=
  let o := import_events loaded body
  if o.new_events = [] then store else store ++ o.new_events

/-! ## Aggregation: ground-truth precedence (src/server.py lines 583-604) -/

/-- A ground-truth daily record; its `cost_usd` key may be absent. -/
structure GTDay where
  cost_usd : Option ℚ
  deriving DecidableEq, Repr

/-- `_gt_daily_early.get(d, {}).get("cost_usd", 0)` (src/server.py line 593). -/
def gt_day_cost (gtDaily : List (String × GTDay)) (d : String) : ℚ :=
  match lookupS d gtDaily with
  | some rec => rec.cost_usd.getD 0
  | none => 0

/-- `today_cost` selection from src/server.py lines 587-590: the ground-truth
record's cost when today has a record (falling back to the tracked sum if the
record lacks `cost_usd`), else the tracked sum. -/
def today_cost (gtDaily : List (String × GTDay)) (today_iso : String)
    (tracked_today_cost : ℚ) : ℚ :=
  match lookupS today_iso gtDaily with
  | some rec => rec.cost_usd.getD tracked_today_cost
  | none => tracked_today_cost

/-- `week_cost` from src/server.py lines 593-594: the sum of ground-truth
per-day costs over the 7 window days, `or tracked_week_cost` (Python `or`:
the tracked fallback applies exactly when the sum is 0). -/
def week_cost (gtDaily : List (String × GTDay)) (weekDays : List String)
    (tracked_week_cost : ℚ) : ℚ :=
  let s := (weekDays.map (gt_day_cost gtDaily)).sum
  if s = 0 then tracked_week_cost else s

/-- String prefix test (`d.startswith(month_start_d)`), transcribed on
character lists. -/
def str_starts_with (s p : String) : Bool := List.isPrefixOf p.toList s.toList

/-- `month_cost` from src/server.py lines 595-596: the sum of `cost_usd` over
ground-truth entries whose date starts with the current `"YYYY-MM"` prefix,
`or tracked_month_cost`. -/
def month_cost (gtDaily : List (String × GTDay)) (ym : String)
    (tracked_month_cost : ℚ) : ℚ :=
  let s := ((gtDaily.filter (fun p => str_starts_with p.1 ym)).map
    (fun p => p.2.cost_usd.getD 0)).sum
  if s = 0 then tracked_month_cost else s

/-- Modelled from the spec's words (claim C2), for comparison with the code's
`week_cost`/`month_cost`: the window total as the sum over days in the window
of the ground-truth cost for that day when a ground-truth record exists for
it, else the tracked per-event sum for that day. -/
def spec_window_total (gtDaily : List (String × GTDay))
    (trackedDaily : String → ℚ) (days : List String) : ℚ :=
  (days.map (fun d =>
    match lookupS d gtDaily with
    | some rec => rec.cost_usd.getD 0
    | none => trackedDaily d)).sum

/-- `kpi.today_cost = round(today_cost * rate, precision)`
(src/server.py line 1157). -/
def kpi_today_cost (gtDaily : List (String × GTDay)) (today_iso : String)
    (tracked_today_cost rate : ℚ) (precision : Nat) : ℚ :=
  pyRound (today_cost gtDaily today_iso tracked_today_cost * rate) precision

/-- `kpi.tracked_today_cost = round(tracked_today_cost * rate, precision)`
(src/server.py line 1158). -/
def kpi_tracked_today_cost (tracked_today_cost rate : ℚ) (precision : Nat) : ℚ :=
  pyRound (tracked_today_cost * rate) precision

/-- `kpi.gt_today_available = today_iso_early in _gt_daily_early`
(src/server.py line 1159). -/
def kpi_gt_today_available (gtDaily : List (String × GTDay))
    (today_iso : String) : Bool :=
  (lookupS today_iso gtDaily).isSome

/-! ## Session-Log adapter (src/auto_logger.py) -/

/-- One line of a session JSONL file as seen by `process_jsonl`
(src/auto_logger.py lines 299-327): `noise` covers blank lines, unparseable
JSON, a non-dict `message`, a missing/empty `usage`, and a non-dict `cost`
block; `msg` carries the parsed cost total, the parsed timestamp (`none`
when `timestamp` is missing or unparseable), the token counts and the
optional model. -/
inductive SessionLine
  | noise
  | msg (ts : Option ℚ) (total_cost input output cacheRead cacheWrite : ℚ)
        (model : Option String)
  deriving DecidableEq

/-- The parsed timestamp of a line, when it has one. -/
def line_ts : SessionLine → Option ℚ
  | .noise => none
  | .msg ts _ _ _ _ _ _ => ts

/-- Python truthiness of the `last_ts`/`new_max_ts` value (float or None):
truthy iff present and nonzero. -/
def qTruthy : Option ℚ → Bool
  | none => false
  | some x => x != 0

/-- `if new_max_ts is None or msg_ts > new_max_ts: new_max_ts = msg_ts`
(src/auto_logger.py lines 334-335). -/
def bump_max (m : Option ℚ) (t : ℚ) : Option ℚ :=
  match m with
  | none => some t
  | some mm => if t > mm then some t else some mm

/-- One emitted cost event of the Session-Log adapter
(src/auto_logger.py lines 346-358).  `ts` is `int(msg_ts)`. -/
structure AEvent where
  ts : Int
  task : String
  model : String
  input_tokens : ℚ
  output_tokens : ℚ
  cache_read_tokens : ℚ
  cache_write_tokens : ℚ
  cost_usd : ℚ
  status : String
  session : String
  source : String
  deriving DecidableEq, Repr

/-- Construction of one emitted event (src/auto_logger.py lines 346-358). -/
def mk_aevent (lbl session : String) (t cost inp outp cr cw : ℚ)
    (model : Option String) : AEvent :=
  { ts := pyTrunc t, task := lbl, model := model.getD "claude-sonnet-4-6",
    input_tokens := inp, output_tokens := outp, cache_read_tokens := cr,
    cache_write_tokens := cw, cost_usd := pyRound cost 6,
    status := "completed", session := session, source := "jsonl-exact" }

/-- The per-line loop of `process_jsonl` (src/auto_logger.py lines 299-359):
`last_ts` is the fixed cursor read at start, the second argument the running
`new_max_ts`.  A message is skipped when its cost is falsy, its timestamp is
unparseable, or `last_ts and msg_ts <= last_ts`. -/
def pjAux (last_ts : Option ℚ) (lbl session : String) :
    List SessionLine → Option ℚ → List AEvent × Option ℚ
  | [], m => ([], m)
  | .noise :: ls, m => pjAux last_ts lbl session ls m
  | .msg ts? cost inp outp cr cw model :: ls, m =>
    if cost = 0 then pjAux last_ts lbl session ls m
    else
      match ts? with
      | none => pjAux last_ts lbl session ls m
      | some t =>
        if qTruthy last_ts = true ∧ t ≤ last_ts.getD 0 then
          pjAux last_ts lbl session ls m
        else
          let rest := pjAux last_ts lbl session ls (bump_max m t)
          (mk_aevent lbl session t cost inp outp cr cw model :: rest.1, rest.2)

/-- `process_jsonl(fpath, last_ts, label)` from src/auto_logger.py lines
279-361: returns the new events and the new max timestamp, which starts at
`last_ts`. -/
def process_jsonl (lines : List SessionLine) (last_ts : Option ℚ)
    (lbl session : String) : List AEvent × Option ℚ :=
  pjAux last_ts lbl session lines last_ts

/-- The timestamps of the records `process_jsonl` emits for a given cursor
(exactly the messages passing the cost/timestamp/cursor filters of `pjAux`). -/
def emit_ts (last_ts : Option ℚ) : SessionLine → Option ℚ
  | .noise => none
  | .msg none _ _ _ _ _ _ => none
  | .msg (some t) cost _ _ _ _ _ =>
    if cost = 0 then none
    else if qTruthy last_ts = true ∧ t ≤ last_ts.getD 0 then none else some t

/-- All record timestamps processed in one run from cursor `last_ts`. -/
def emitted_ts (last_ts : Option ℚ) (lines : List SessionLine) : List ℚ :=
  lines.filterMap (emit_ts last_ts)

/-- One adapter run for one session file, from `_run`
(src/auto_logger.py lines 546-562, 571-572): process the file against the
stored cursor, then persist `new_max_ts` as the new cursor only
`if new_max_ts:` (truthy), else keep the old entry. -/
def run_session (lbl session : String) (c : Option ℚ)
    (lines : List SessionLine) : List AEvent × Option ℚ :=
  let r := process_jsonl lines c lbl session
  (r.1, if qTruthy r.2 = true then r.2 else c)

/-- A sequence of adapter runs on successive file contents, threading the
persisted cursor and collecting all emitted events. -/
def run_sessions (lbl session : String) :
    Option ℚ → List (List SessionLine) → List AEvent × Option ℚ
  | c, [] => ([], c)
  | c, f :: fs =>
    let r := run_session lbl session c f
    let rest := run_sessions lbl session r.2 fs
    (r.1 ++ rest.1, rest.2)

/-- The record timestamps processed across a sequence of runs. -/
def runs_processed (lbl session : String) :
    Option ℚ → List (List SessionLine) → List ℚ
  | _, [] => []
  | c, f :: fs =>
    emitted_ts c f ++ runs_processed lbl session (run_session lbl session c f).2 fs

/-- The trace of persisted cursor values: initial cursor, then the value after
each run. -/
def run_cursors (lbl session : String) :
    Option ℚ → List (List SessionLine) → List (Option ℚ)
  | c, [] => [c]
  | c, f :: fs => c :: run_cursors lbl session (run_session lbl session c f).2 fs

/-- Cursor comparison: an absent cursor precedes everything; a present cursor
never becomes absent and never decreases. -/
def cursor_le : Option ℚ → Option ℚ → Prop
  | none, _ => True
  | some _, none => False
  | some a, some b => a ≤ b

/-- Folding `bump_max` over a list of timestamps (the running-max bookkeeping
of `process_jsonl`). -/
def fold_max (m : Option ℚ) (ts : List ℚ) : Option ℚ :=
  ts.foldl bump_max m

/-- C7: percentile statistics use linear interpolation on the sorted cost
values; for the cost list [1,...,10] the computed p50 equals 5.5. -/
theorem C7_percentile_p50_linear_interpolation :
    percentile [1,2,3,4,5,6,7,8,9,10] 50 = 11/2 := by
  norm_num [percentile, sortQ, insertQ, pyTrunc, pyIndex]
  decide

/-- C8: the 3-day forecast is ordinary least squares over the trailing 7 daily
totals; on the constant input of 7 daily totals equal to 10 the regression
returns slope 0 and intercept 10 and each of the 3 forecast values equals
10. -/
theorem C8_forecast_flat_input :
    linear_regression ((List.range 7).map (fun i => (i : ℚ))) (List.replicate 7 10) = (0, 10) ∧
    forecast_3d (List.replicate 7 10) = [(1, 10), (2, 10), (3, 10)] := by
  constructor
  · norm_num [linear_regression, List.range_succ, List.replicate]
  · norm_num [forecast_3d, linear_regression, pyRound, List.range_succ, List.replicate]

/-- C9: for every set of triggered rules, the efficiency score equals 100 minus
the sum of severity weights (high = 20, medium = 10, low = 5) clamped at 0 from
below, and the letter grade is A iff score ≥ 90, B iff 75 ≤ score < 90, C iff
60 ≤ score < 75, D iff 40 ≤ score < 60, else F. -/
theorem C9_efficiency_score_and_grade (sevs : List String) :
    compute_efficiency_score sevs =
      max 0 (100 - (20 * (sevs.count "high" : Int) + 10 * (sevs.count "medium" : Int)
        + 5 * (sevs.count "low" : Int))) ∧
    (∀ n : Int,
      (efficiency_grade n = "A" ↔ 90 ≤ n) ∧
      (efficiency_grade n = "B" ↔ 75 ≤ n ∧ n < 90) ∧
      (efficiency_grade n = "C" ↔ 60 ≤ n ∧ n < 75) ∧
      (efficiency_grade n = "D" ↔ 40 ≤ n ∧ n < 60) ∧
      (efficiency_grade n = "F" ↔ n < 40)) := by
  constructor
  · have h : (sevs.map severity_deduction).sum =
        20 * (sevs.count "high" : Int) + 10 * (sevs.count "medium" : Int)
          + 5 * (sevs.count "low" : Int) := by
      induction sevs with
      | nil => simp
      | cons s rest ih =>
        simp only [List.map_cons, List.sum_cons, ih, List.count_cons]
        by_cases h1 : s = "high"
        · subst h1; simp [severity_deduction]; ring
        · by_cases h2 : s = "medium"
          · subst h2; simp [severity_deduction, h1]; ring
          · by_cases h3 : s = "low"
            · subst h3; simp [severity_deduction, h1, h2]; ring
            · simp [severity_deduction, h1, h2, h3]
    simp [compute_efficiency_score, h]
  · intro n
    refine ⟨?_, ?_, ?_, ?_, ?_⟩ <;> (unfold efficiency_grade; split_ifs <;> simp_all <;> omega)

/-- Witness for C9: a concrete rule set — one high and one low rule give score
75 and grade B. -/
theorem C9_efficiency_score_and_grade_witness :
    compute_efficiency_score ["high", "low"] =
      max 0 (100 - (20 * ((["high", "low"] : List String).count "high" : Int)
        + 10 * ((["high", "low"] : List String).count "medium" : Int)
        + 5 * ((["high", "low"] : List String).count "low" : Int))) ∧
    (efficiency_grade 75 = "B" ↔ 75 ≤ (75 : Int) ∧ (75 : Int) < 90) :=
  ⟨(C9_efficiency_score_and_grade ["high", "low"]).1,
   ((C9_efficiency_score_and_grade ["high", "low"]).2 75).2.1⟩

/-- Non-blank body lines (the lines the import accounts for). -/
def nonblank_line : ImportLine → Bool
  | .blank => false
  | _ => true

theorem import_loop_counts (ls : List ImportLine) : ∀ ids : List EventId,
    (import_loop ls ids).imported + (import_loop ls ids).skipped_malformed
      + (import_loop ls ids).skipped_dupes = ls.countP nonblank_line ∧
    (import_loop ls ids).new_events.length = (import_loop ls ids).imported := by
  induction ls with
  | nil => intro ids; simp [import_loop]
  | cons l ls ih =>
    intro ids
    cases l with
    | blank => simpa [import_loop, nonblank_line] using ih ids
    | badLine =>
      have h := ih ids
      simp [import_loop, nonblank_line]
      omega
    | event ev =>
      have h1 := ih ids
      have h2 := ih (event_id ev :: ids)
      simp only [import_loop]
      split_ifs with hreq hmem <;> simp [nonblank_line] <;> omega

/-- C10: bulk-import accounting is exhaustive and exclusive — for every loaded
store and request body, imported + skipped_malformed + skipped_dupes equals
the number of non-blank body lines, the accepted events are exactly the
imported ones (their count equals `imported`), and the store afterwards is the
old store with exactly the accepted events appended. -/
theorem C10_import_accounting (loaded store : List Event) (body : List ImportLine) :
    (import_events loaded body).imported
      + (import_events loaded body).skipped_malformed
      + (import_events loaded body).skipped_dupes = body.countP nonblank_line ∧
    (import_events loaded body).new_events.length
      = (import_events loaded body).imported ∧
    import_store_after store loaded body
      = store ++ (import_events loaded body).new_events := by
  refine ⟨(import_loop_counts body (loaded.map event_id)).1,
    (import_loop_counts body (loaded.map event_id)).2, ?_⟩
  unfold import_store_after
  by_cases h : (import_events loaded body).new_events = [] <;> simp [h]

theorem event_id_set_id (ev : Event) (x : EventId) :
    event_id { ev with id := some x } = event_id ev := rfl

theorem import_loop_all_fresh (batch : List Event) : ∀ ids : List EventId,
    (∀ e ∈ batch, required_ok e = true) →
    (batch.map event_id).Nodup →
    (∀ e ∈ batch, event_id e ∉ ids) →
    import_loop (batch.map ImportLine.event) ids =
      ⟨batch.length, 0, 0,
        batch.map (fun e => { e with id := some (event_id e) })⟩ := by
  induction batch with
  | nil => intro ids _ _ _; rfl
  | cons e es ih =>
    intro ids hwf hnodup hfresh
    have hwf_e : required_ok e = true := hwf e (by simp)
    have hmem : event_id e ∉ ids := hfresh e (by simp)
    rw [List.map_cons] at hnodup
    have hcons := List.nodup_cons.mp hnodup
    have hnodup' : (es.map event_id).Nodup := hcons.2
    have hfresh' : ∀ x ∈ es, event_id x ∉ (event_id e :: ids) := by
      intro x hx
      simp only [List.mem_cons, not_or]
      refine ⟨fun hEq => hcons.1 ?_, hfresh x (List.mem_cons_of_mem _ hx)⟩
      exact hEq ▸ List.mem_map_of_mem _ hx
    simp only [List.map_cons, import_loop, hwf_e, if_true, hmem, if_neg,
      ih (event_id e :: ids) (fun x hx => hwf x (List.mem_cons_of_mem _ hx))
        hnodup' hfresh']
    simp [List.length_cons]

theorem import_loop_all_dup (batch : List Event) : ∀ ids : List EventId,
    (∀ e ∈ batch, required_ok e = true) →
    (∀ e ∈ batch, event_id e ∈ ids) →
    import_loop (batch.map ImportLine.event) ids = ⟨0, 0, batch.length, []⟩ := by
  induction batch with
  | nil => intro ids _ _; rfl
  | cons e es ih =>
    intro ids hwf hdup
    have hwf_e : required_ok e = true := hwf e (by simp)
    have hmem : event_id e ∈ ids := hdup e (by simp)
    simp only [List.map_cons, import_loop, hwf_e, if_true, hmem, if_pos,
      ih ids (fun x hx => hwf x (List.mem_cons_of_mem _ hx))
        (fun x hx => hdup x (List.mem_cons_of_mem _ hx))]
    simp [List.length_cons]

/-- The first bulk import of a batch against a loaded store. -/
def first_import (loaded batch : List Event) : ImportOutcome :=
  import_events loaded (batch.map ImportLine.event)

/-- The event list the second import sees: the store after the first import
(old events plus the accepted ones), re-loaded through `load_events`, which
applies `_enrich_session_labels` to it. -/
def reloaded (spawn cache : List (String × String)) (localFmt : ℚ → String)
    (loaded batch : List Event) : List Event :=
  enrich_session_labels spawn cache localFmt
    (loaded ++ (first_import loaded batch).new_events)

/-- The second bulk import of the identical batch, against the re-loaded
(enriched) store. -/
def second_import (spawn cache : List (String × String)) (localFmt : ℚ → String)
    (loaded batch : List Event) : ImportOutcome :=
  import_events (reloaded spawn cache localFmt loaded batch)
    (batch.map ImportLine.event)

/-- C1 (amended): importing a batch of K well-formed events with
pairwise-distinct derived ids into a store containing none of them returns
imported = K; and — provided the store contents after the first import are
unaffected by the loader's session-label enrichment (no anonymous
"Session XXXXXXXX" labels or spawn-labelled sessions among them, expressed as
enrichment acting as the identity on the reloaded list) — immediately
importing the identical batch again returns imported = 0 and
skipped_dupes = K with the store unchanged by the second import. -/
theorem C1_import_idempotent_amended (loaded batch : List Event)
    (spawn cache : List (String × String)) (localFmt : ℚ → String)
    (hwf : ∀ e ∈ batch, required_ok e = true)
    (hnodup : (batch.map event_id).Nodup)
    (hfresh : ∀ e ∈ batch, event_id e ∉ loaded.map event_id)
    (henrich : enrich_session_labels spawn cache localFmt
        (loaded ++ (first_import loaded batch).new_events)
      = loaded ++ (first_import loaded batch).new_events) :
    (first_import loaded batch).imported = batch.length ∧
    (first_import loaded batch).skipped_malformed = 0 ∧
    (first_import loaded batch).skipped_dupes = 0 ∧
    (second_import spawn cache localFmt loaded batch).imported = 0 ∧
    (second_import spawn cache localFmt loaded batch).skipped_malformed = 0 ∧
    (second_import spawn cache localFmt loaded batch).skipped_dupes = batch.length ∧
    import_store_after (loaded ++ (first_import loaded batch).new_events)
        (reloaded spawn cache localFmt loaded batch) (batch.map ImportLine.event)
      = loaded ++ (first_import loaded batch).new_events := by
  have h1 : first_import loaded batch =
      ⟨batch.length, 0, 0,
        batch.map (fun e => { e with id := some (event_id e) })⟩ :=
    import_loop_all_fresh batch (loaded.map event_id) hwf hnodup hfresh
  have hreload : reloaded spawn cache localFmt loaded batch =
      loaded ++ (first_import loaded batch).new_events := henrich
  have hids : ∀ e ∈ batch,
      event_id e ∈ (reloaded spawn cache localFmt loaded batch).map event_id := by
    intro e he
    rw [hreload, List.map_append, h1]
    refine List.mem_append.mpr (Or.inr ?_)
    have : event_id { e with id := some (event_id e) } = event_id e :=
      event_id_set_id e _
    simpa [List.map_map, Function.comp] using
      (List.mem_map_of_mem (fun x : Event => event_id
        { x with id := some (event_id x) }) he)
  have h2 : second_import spawn cache localFmt loaded batch =
      ⟨0, 0, batch.length, []⟩ :=
    import_loop_all_dup batch _ hwf hids
  refine ⟨by rw [h1], by rw [h1], by rw [h1], by rw [h2], by rw [h2], by rw [h2], ?_⟩
  unfold import_store_after
  have heq : import_events (reloaded spawn cache localFmt loaded batch)
      (batch.map ImportLine.event) = ⟨0, 0, batch.length, []⟩ := h2
  rw [heq]
  simp

/-- A concrete one-event batch whose task is an anonymous session label
subject to relabelling by `_enrich_session_labels`. -/
def ce_batch : List Event :=
  [{ ts := some 1000, task := some "Session abcd1234", cost_usd := some 1,
     session := none, model := none, id := none }]

/-- Counterexample to C1 as stated: the batch is well-formed, has a distinct
derived id, and the store (empty) contains none of it; the first import
returns imported = 1, but because the reload relabels the stored event's
anonymous task (changing its derived id), the second import of the identical
batch returns imported = 1 and skipped_dupes = 0 — not imported = 0 and
skipped_dupes = 1 as the claim requires — and appends a duplicate. -/
theorem C1_counterexample :
    (first_import [] ce_batch).imported = 1 ∧
    (second_import [] [] (fun _ => "T") [] ce_batch).imported = 1 ∧
    (second_import [] [] (fun _ => "T") [] ce_batch).skipped_dupes = 0 := by
  refine ⟨by decide, by decide, by decide⟩

/-- A concrete two-event batch with plain task labels, for the C1 witness. -/
def w_batch : List Event :=
  [{ ts := some 10, task := some "alpha", cost_usd := some 2,
     session := none, model := none, id := none },
   { ts := some 11, task := some "beta", cost_usd := some 3,
     session := none, model := none, id := none }]

/-- Witness for C1 (amended): a two-event batch with plain task labels into an
empty store — first import accepts both, second import skips both as dupes. -/
theorem C1_import_idempotent_amended_witness :
    (first_import [] w_batch).imported = 2 ∧
    (second_import [] [] (fun _ => "T") [] w_batch).imported = 0 ∧
    (second_import [] [] (fun _ => "T") [] w_batch).skipped_dupes = 2 := by
  have h := C1_import_idempotent_amended [] w_batch [] [] (fun _ => "T")
    (by decide) (by decide) (by decide) (by decide)
  exact ⟨h.1, h.2.2.2.1, h.2.2.2.2.2.1⟩

/-- The events carried by the parseable lines of a store file, in order. -/
def valid_events : List StoreLine → List Event
  | [] => []
  | .ok ev :: ls => ev :: valid_events ls
  | .blank :: ls => valid_events ls
  | .malformed :: ls => valid_events ls

/-- The number of unparseable lines of a store file. -/
def malformed_count : List StoreLine → Nat
  | [] => 0
  | .malformed :: ls => malformed_count ls + 1
  | .ok _ :: ls => malformed_count ls
  | .blank :: ls => malformed_count ls

theorem parse_store_lines_eq (ls : List StoreLine) :
    parse_store_lines ls = ((valid_events ls).map add_id, malformed_count ls) := by
  induction ls with
  | nil => rfl
  | cons l ls ih =>
    cases l <;> simp [parse_store_lines, valid_events, malformed_count, ih]

theorem enrich_session_labels_length (spawn cache : List (String × String))
    (localFmt : ℚ → String) (evs : List Event) :
    (enrich_session_labels spawn cache localFmt evs).length = evs.length := by
  simp [enrich_session_labels]

/-- C6: event loading is tolerant of malformed lines and never fatal — for
every existing store file whose lines carry exactly 3 parseable events and 2
unparseable lines, `load_events` returns exactly those 3 events (in order,
with stable ids added and session labels enriched), does not enter demo mode,
and reports `malformed_lines = 2`. -/
theorem C6_load_malformed_tolerant (fileLines : List StoreLine)
    (demoExists : Bool) (demoLines : List StoreLine)
    (spawn cache : List (String × String)) (localFmt : ℚ → String)
    (h3 : (valid_events fileLines).length = 3)
    (h2 : malformed_count fileLines = 2) :
    (load_events true fileLines demoExists demoLines spawn cache localFmt).events
      = enrich_session_labels spawn cache localFmt
          ((valid_events fileLines).map add_id) ∧
    (load_events true fileLines demoExists demoLines spawn cache
      localFmt).events.length = 3 ∧
    (load_events true fileLines demoExists demoLines spawn cache
      localFmt).demo_mode = false ∧
    (load_events true fileLines demoExists demoLines spawn cache
      localFmt).malformed_lines = 2 := by
  have hne : (valid_events fileLines).map add_id ≠ [] := by
    intro hnil
    have : ((valid_events fileLines).map add_id).length = 0 := by rw [hnil]; rfl
    rw [List.length_map, h3] at this
    exact absurd this (by decide)
  have hload : load_events true fileLines demoExists demoLines spawn cache localFmt
      = { events := enrich_session_labels spawn cache localFmt
            ((valid_events fileLines).map add_id),
          demo_mode := false, malformed_lines := malformed_count fileLines } := by
    unfold load_events
    rw [if_pos rfl, parse_store_lines_eq]
    rw [if_neg (by simp [hne])]
  refine ⟨by rw [hload], ?_, by rw [hload], by rw [hload, h2]⟩
  rw [hload]
  show (enrich_session_labels spawn cache localFmt
    ((valid_events fileLines).map add_id)).length = 3
  rw [enrich_session_labels_length, List.length_map, h3]

/-- A simple well-formed event with task `name`, for concrete instances. -/
def mk_ev (t : ℚ) (name : String) : Event :=
  { ts := some t, task := some name, cost_usd := some 1,
    session := none, model := none, id := none }

/-- A concrete 5-line store file: 3 parseable events around 2 unparseable
lines. -/
def w_lines : List StoreLine :=
  [StoreLine.ok (mk_ev 1 "a"), StoreLine.malformed, StoreLine.ok (mk_ev 2 "b"),
   StoreLine.malformed, StoreLine.ok (mk_ev 3 "c")]

/-- Witness for C6: a concrete 5-line store file — events around two
unparseable lines — loads exactly the 3 events and reports 2 malformed
lines. -/
theorem C6_load_malformed_tolerant_witness :
    (load_events true w_lines true [] [] [] (fun _ => "T")).events.length = 3 ∧
    (load_events true w_lines true [] [] [] (fun _ => "T")).malformed_lines = 2 := by
  have h := C6_load_malformed_tolerant w_lines
    true [] [] [] (fun _ => "T") (by decide) (by decide)
  exact ⟨h.2.1, h.2.2.2⟩

/-- Ground-truth data for the C2 counterexample: only the first window day has
a record (cost 5). -/
def c2_gt : List (String × GTDay) := [("d0", ⟨some 5⟩)]

/-- A 7-day window for the C2 counterexample. -/
def c2_days : List String := ["d0", "d1", "d2", "d3", "d4", "d5", "d6"]

/-- Tracked per-day sums for the C2 counterexample: day d1 has tracked cost 3,
every other day 0 (so the tracked window total is 3). -/
def c2_tracked : String → ℚ := fun d => if d = "d1" then 3 else 0

/-- Counterexample to C2 as stated: with ground truth only for day d0
(cost 5) and tracked cost 3 on the ground-truth-missing day d1, the code's
week total is 5 (missing days contribute 0 once any ground-truth day sums
nonzero), while the claimed per-day-fallback total is 5 + 3 = 8. -/
theorem C2_counterexample :
    week_cost c2_gt c2_days ((c2_days.map c2_tracked).sum)
      ≠ spec_window_total c2_gt c2_tracked c2_days := by
  have h1 : week_cost c2_gt c2_days ((c2_days.map c2_tracked).sum) = 5 := by
    simp [week_cost, c2_gt, c2_days, c2_tracked, gt_day_cost, lookupS]
  have h2 : spec_window_total c2_gt c2_tracked c2_days = 8 := by
    simp [spec_window_total, c2_gt, c2_days, c2_tracked, lookupS]
    norm_num
  rw [h1, h2]
  norm_num

/-- C2 (amended): the week/month totals of the aggregation engine use a
whole-window fallback, not a per-day one — the reported total equals the
spec's per-day-fallback formula exactly in the two uniform cases: (i) when
every window day has a ground-truth record and the ground-truth window sum is
nonzero, the total is the ground-truth sum; (ii) when no window day has a
ground-truth record (and the tracked window total is the sum of the tracked
per-day sums), the total is the tracked window total.  For the month window,
when no ground-truth entry falls in the current month the total is the
tracked month total.  In mixed windows, days missing from ground truth
contribute 0 rather than their tracked sums. -/
theorem C2_window_totals_amended (gtDaily : List (String × GTDay))
    (trackedDaily : String → ℚ) (days : List String) (tw tm : ℚ) (ym : String) :
    ((∀ d ∈ days, (lookupS d gtDaily).isSome) →
      (days.map (gt_day_cost gtDaily)).sum ≠ 0 →
      week_cost gtDaily days tw = spec_window_total gtDaily trackedDaily days) ∧
    ((∀ d ∈ days, lookupS d gtDaily = none) →
      tw = (days.map trackedDaily).sum →
      week_cost gtDaily days tw = spec_window_total gtDaily trackedDaily days) ∧
    ((∀ p ∈ gtDaily, str_starts_with p.1 ym = false) →
      month_cost gtDaily ym tm = tm) := by
  refine ⟨?_, ?_, ?_⟩
  · intro hall hne
    have hmap : days.map (fun d =>
        match lookupS d gtDaily with
        | some rec => rec.cost_usd.getD 0
        | none => trackedDaily d) = days.map (gt_day_cost gtDaily) := by
      refine List.map_congr_left ?_
      intro d hd
      rcases Option.isSome_iff_exists.mp (hall d hd) with ⟨rec, hrec⟩
      simp [gt_day_cost, hrec]
    unfold week_cost spec_window_total
    rw [hmap, if_neg hne]
  · intro hnone htw
    have hz : days.map (gt_day_cost gtDaily) = days.map (fun _ => (0 : ℚ)) := by
      refine List.map_congr_left ?_
      intro d hd
      simp [gt_day_cost, hnone d hd]
    have hspec : days.map (fun d =>
        match lookupS d gtDaily with
        | some rec => rec.cost_usd.getD 0
        | none => trackedDaily d) = days.map trackedDaily := by
      refine List.map_congr_left ?_
      intro d hd
      simp [hnone d hd]
    unfold week_cost spec_window_total
    rw [hz, hspec, htw]
    simp
  · intro hnone
    have hf : gtDaily.filter (fun p => str_starts_with p.1 ym) = [] := by
      refine List.filter_eq_nil_iff.mpr ?_
      intro p hp
      simp [hnone p hp]
    unfold month_cost
    rw [hf]
    simp

/-- Witness for C2 (amended): day "x" fully covered by ground truth (cost 4)
gives week total 4 matching the per-day formula; an uncovered single-day
window falls back to its tracked total 9; a month with no ground-truth
entries reports the tracked month total 7. -/
theorem C2_window_totals_amended_witness :
    week_cost [("x", ⟨some 4⟩)] ["x"] 9
      = spec_window_total [("x", ⟨some 4⟩)] (fun _ => 9) ["x"] ∧
    week_cost [] ["y"] 9 = spec_window_total [] (fun _ => 9) ["y"] ∧
    month_cost [] "2026-10" 7 = 7 := by
  refine ⟨(C2_window_totals_amended [("x", ⟨some 4⟩)] (fun _ => 9) ["x"] 9 7
      "2026-10").1 (by simp [lookupS]) ?_,
    (C2_window_totals_amended [] (fun _ => 9) ["y"] 9 7 "2026-10").2.1
      (by simp [lookupS]) (by simp),
    (C2_window_totals_amended [] (fun _ => 9) ["y"] 9 7 "2026-10").2.2
      (by simp)⟩
  norm_num [gt_day_cost, lookupS]

/-- C3: for a fixed calendar day with a ground-truth record carrying cost `g`,
the snapshot reports that day's cost as the ground-truth value (`today_cost`
is `g` and `kpi.today_cost` is `round(g*rate, precision)`), while the
tracked-only field still reports the locally tracked per-event sum, and the
availability flag is set. -/
theorem C3_gt_precedence_today (gtDaily : List (String × GTDay))
    (today_iso : String) (tracked rate : ℚ) (prec : Nat) (g : ℚ)
    (h : lookupS today_iso gtDaily = some ⟨some g⟩) :
    today_cost gtDaily today_iso tracked = g ∧
    kpi_today_cost gtDaily today_iso tracked rate prec = pyRound (g * rate) prec ∧
    kpi_tracked_today_cost tracked rate prec = pyRound (tracked * rate) prec ∧
    kpi_gt_today_available gtDaily today_iso = true := by
  have h1 : today_cost gtDaily today_iso tracked = g := by simp [today_cost, h]
  refine ⟨h1, ?_, rfl, ?_⟩
  · unfold kpi_today_cost
    rw [h1]
  · simp [kpi_gt_today_available, h]

/-- Witness for C3: tracked total 10 and ground truth 12 for today (rate 1,
precision 4) yield `kpi.today_cost = 12` and `kpi.tracked_today_cost = 10`. -/
theorem C3_gt_precedence_today_witness :
    kpi_today_cost [("2026-02-27", ⟨some 12⟩)] "2026-02-27" 10 1 4 = 12 ∧
    kpi_tracked_today_cost 10 1 4 = 10 := by
  have h := C3_gt_precedence_today [("2026-02-27", ⟨some 12⟩)] "2026-02-27"
    10 1 4 12 (by simp [lookupS])
  constructor
  · rw [h.2.1]
    norm_num [pyRound]
  · rw [h.2.2.1]
    norm_num [pyRound]

theorem fold_max_cons (m : Option ℚ) (t : ℚ) (ts : List ℚ) :
    fold_max m (t :: ts) = fold_max (bump_max m t) ts := rfl

theorem bump_max_spec (m : Option ℚ) (t : ℚ) :
    ∃ y, bump_max m t = some y ∧ t ≤ y ∧ (∀ x, m = some x → x ≤ y) ∧
      (m = some y ∨ y = t) := by
  cases m with
  | none => exact ⟨t, rfl, le_refl t, by simp, Or.inr rfl⟩
  | some a =>
    by_cases h : t > a
    · exact ⟨t, by simp [bump_max, h], le_refl t,
        by intro x hx; cases hx; exact le_of_lt h, Or.inr rfl⟩
    · refine ⟨a, by simp [bump_max, h], le_of_not_lt h,
        by intro x hx; cases hx; exact le_refl a, Or.inl rfl⟩

theorem fold_max_spec (ts : List ℚ) : ∀ m : Option ℚ,
    (fold_max m ts = none → (m = none ∧ ts = [])) ∧
    (∀ v, fold_max m ts = some v →
      (m = some v ∨ v ∈ ts) ∧ (∀ x, m = some x → x ≤ v) ∧ (∀ t ∈ ts, t ≤ v)) := by
  induction ts with
  | nil =>
    intro m
    refine ⟨fun h => ⟨h, rfl⟩, fun v hv => ⟨Or.inl hv, ?_, by simp⟩⟩
    intro x hx
    have hmv : m = some v := hv
    rw [hx] at hmv
    injection hmv with h
    exact le_of_eq h
  | cons t ts ih =>
    intro m
    obtain ⟨y, hy, hty, hxy, hcase⟩ := bump_max_spec m t
    rw [fold_max_cons, hy]
    refine ⟨fun h => absurd ((ih (some y)).1 h).1 (by simp), ?_⟩
    intro v hv
    obtain ⟨hmem, hle, hall⟩ := (ih (some y)).2 v hv
    have hyv : y ≤ v := hle y rfl
    refine ⟨?_, fun x hx => le_trans (hxy x hx) hyv, ?_⟩
    · rcases hmem with hyv2 | hvmem
      · cases hyv2
        rcases hcase with hm | ht
        · exact Or.inl hm
        · exact Or.inr (ht ▸ List.mem_cons_self t ts)
      · exact Or.inr (List.mem_cons_of_mem t hvmem)
    · intro u hu
      rcases List.mem_cons.mp hu with hu | hu
      · exact hu ▸ le_trans hty hyv
      · exact hall u hu

theorem pjAux_snd (last_ts : Option ℚ) (lbl session : String)
    (lines : List SessionLine) : ∀ m : Option ℚ,
    (pjAux last_ts lbl session lines m).2 = fold_max m (emitted_ts last_ts lines) := by
  induction lines with
  | nil => intro m; rfl
  | cons l ls ih =>
    intro m
    cases l with
    | noise => simpa [pjAux, emitted_ts, emit_ts, List.filterMap_cons] using ih m
    | msg ts? cost inp outp cr cw model =>
      cases ts? with
      | none =>
        by_cases hc : cost = 0 <;>
          simpa [pjAux, hc, emitted_ts, emit_ts, List.filterMap_cons] using ih m
      | some t =>
        by_cases hc : cost = 0
        · simpa [pjAux, hc, emitted_ts, emit_ts, List.filterMap_cons] using ih m
        · by_cases hskip : qTruthy last_ts = true ∧ t ≤ last_ts.getD 0
          · simpa [pjAux, hc, hskip, emitted_ts, emit_ts, List.filterMap_cons]
              using ih m
          · have hunfold : pjAux last_ts lbl session
                (SessionLine.msg (some t) cost inp outp cr cw model :: ls) m =
                (mk_aevent lbl session t cost inp outp cr cw model ::
                  (pjAux last_ts lbl session ls (bump_max m t)).1,
                 (pjAux last_ts lbl session ls (bump_max m t)).2) := by
              simp [pjAux, hc, hskip]
            have hemit : emitted_ts last_ts
                (SessionLine.msg (some t) cost inp outp cr cw model :: ls)
                = t :: emitted_ts last_ts ls := by
              simp [emitted_ts, emit_ts, List.filterMap_cons, hc, hskip]
            rw [hunfold, hemit, fold_max_cons]
            exact ih (bump_max m t)

theorem pjAux_len (last_ts : Option ℚ) (lbl session : String)
    (lines : List SessionLine) : ∀ m : Option ℚ,
    (pjAux last_ts lbl session lines m).1.length
      = (emitted_ts last_ts lines).length := by
  induction lines with
  | nil => intro m; rfl
  | cons l ls ih =>
    intro m
    cases l with
    | noise => simpa [pjAux, emitted_ts, emit_ts, List.filterMap_cons] using ih m
    | msg ts? cost inp outp cr cw model =>
      cases ts? with
      | none =>
        by_cases hc : cost = 0 <;>
          simpa [pjAux, hc, emitted_ts, emit_ts, List.filterMap_cons] using ih m
      | some t =>
        by_cases hc : cost = 0
        · simpa [pjAux, hc, emitted_ts, emit_ts, List.filterMap_cons] using ih m
        · by_cases hskip : qTruthy last_ts = true ∧ t ≤ last_ts.getD 0
          · simpa [pjAux, hc, hskip, emitted_ts, emit_ts, List.filterMap_cons]
              using ih m
          · have hunfold : pjAux last_ts lbl session
                (SessionLine.msg (some t) cost inp outp cr cw model :: ls) m =
                (mk_aevent lbl session t cost inp outp cr cw model ::
                  (pjAux last_ts lbl session ls (bump_max m t)).1,
                 (pjAux last_ts lbl session ls (bump_max m t)).2) := by
              simp [pjAux, hc, hskip]
            have hemit : emitted_ts last_ts
                (SessionLine.msg (some t) cost inp outp cr cw model :: ls)
                = t :: emitted_ts last_ts ls := by
              simp [emitted_ts, emit_ts, List.filterMap_cons, hc, hskip]
            rw [hunfold, hemit]
            simp only [List.length_cons]
            rw [ih (bump_max m t)]

theorem emitted_ts_mem (c : Option ℚ) (lines : List SessionLine) :
    ∀ t ∈ emitted_ts c lines, ∃ l ∈ lines, line_ts l = some t := by
  intro t ht
  obtain ⟨l, hl, hemit⟩ := List.mem_filterMap.mp ht
  refine ⟨l, hl, ?_⟩
  cases l with
  | noise => simp [emit_ts] at hemit
  | msg ts? cost inp outp cr cw model =>
    cases ts? with
    | none => simp [emit_ts] at hemit
    | some u =>
      simp only [emit_ts] at hemit
      split_ifs at hemit
      injection hemit with h
      rw [← h]
      rfl

theorem fold_max_append (m : Option ℚ) (a b : List ℚ) :
    fold_max m (a ++ b) = fold_max (fold_max m a) b := by
  simp [fold_max, List.foldl_append]

theorem run_session_cursor_eq (lbl session : String) (c : Option ℚ)
    (lines : List SessionLine) (hc : c ≠ some 0)
    (hts : ∀ t ∈ emitted_ts c lines, t ≠ 0) :
    (run_session lbl session c lines).2 = fold_max c (emitted_ts c lines) ∧
    (run_session lbl session c lines).2 ≠ some 0 := by
  have hsnd : (process_jsonl lines c lbl session).2
      = fold_max c (emitted_ts c lines) := pjAux_snd c lbl session lines c
  unfold run_session
  dsimp only
  rw [hsnd]
  cases hfold : fold_max c (emitted_ts c lines) with
  | none =>
    have hnone := (fold_max_spec (emitted_ts c lines) c).1 hfold
    rw [hnone.1]
    simp [qTruthy]
  | some v =>
    have hv := (fold_max_spec (emitted_ts c lines) c).2 v hfold
    have hvne : v ≠ 0 := by
      rcases hv.1 with hcv | hmem
      · intro h0
        rw [h0] at hcv
        exact hc hcv
      · exact hts v hmem
    simp [qTruthy, hvne]

theorem run_session_mono (lbl session : String) (c : Option ℚ)
    (lines : List SessionLine) :
    cursor_le c (run_session lbl session c lines).2 := by
  cases c with
  | none => simp [cursor_le]
  | some a =>
    have hsnd : (process_jsonl lines (some a) lbl session).2
        = fold_max (some a) (emitted_ts (some a) lines) :=
      pjAux_snd (some a) lbl session lines (some a)
    unfold run_session
    dsimp only
    rw [hsnd]
    cases hfold : fold_max (some a) (emitted_ts (some a) lines) with
    | none =>
      have := ((fold_max_spec (emitted_ts (some a) lines) (some a)).1 hfold).1
      exact absurd this (by simp)
    | some v =>
      have hav : a ≤ v :=
        ((fold_max_spec (emitted_ts (some a) lines) (some a)).2 v hfold).2.1 a rfl
      by_cases hq : qTruthy (some v) = true
      · rw [if_pos hq]
        exact hav
      · rw [if_neg hq]
        exact le_refl a

theorem run_cursors_shape (lbl session : String) (c : Option ℚ)
    (fs : List (List SessionLine)) :
    ∃ r, run_cursors lbl session c fs = c :: r := by
  cases fs <;> exact ⟨_, rfl⟩

theorem run_cursors_chain (lbl session : String) (fs : List (List SessionLine)) :
    ∀ c : Option ℚ, List.Chain' cursor_le (run_cursors lbl session c fs) := by
  induction fs with
  | nil => intro c; simp [run_cursors]
  | cons f fs ih =>
    intro c
    obtain ⟨r, hr⟩ := run_cursors_shape lbl session
      (run_session lbl session c f).2 fs
    show List.Chain' cursor_le
      (c :: run_cursors lbl session (run_session lbl session c f).2 fs)
    rw [hr]
    refine List.chain'_cons.mpr ⟨run_session_mono lbl session c f, ?_⟩
    rw [← hr]
    exact ih _

theorem run_sessions_len (lbl session : String) (files : List (List SessionLine)) :
    ∀ c : Option ℚ, (run_sessions lbl session c files).1.length
      = (runs_processed lbl session c files).length := by
  induction files with
  | nil => intro c; rfl
  | cons f fs ih =>
    intro c
    show ((run_session lbl session c f).1
      ++ (run_sessions lbl session (run_session lbl session c f).2 fs).1).length = _
    rw [List.length_append, runs_processed, List.length_append]
    have h1 : (run_session lbl session c f).1.length = (emitted_ts c f).length :=
      pjAux_len c lbl session f c
    rw [h1, ih]

theorem runs_cursor_spec (lbl session : String) (files : List (List SessionLine)) :
    ∀ c : Option ℚ, c ≠ some 0 →
    (∀ f ∈ files, ∀ l ∈ f, ∀ t : ℚ, line_ts l = some t → t ≠ 0) →
    (run_sessions lbl session c files).2
      = fold_max c (runs_processed lbl session c files) ∧
    (run_sessions lbl session c files).2 ≠ some 0 := by
  induction files with
  | nil => intro c hc _; exact ⟨rfl, hc⟩
  | cons f fs ih =>
    intro c hc hpos
    have hts : ∀ t ∈ emitted_ts c f, t ≠ 0 := by
      intro t ht
      obtain ⟨l, hl, hlt⟩ := emitted_ts_mem c f t ht
      exact hpos f (by simp) l hl t hlt
    obtain ⟨h1, h1ne⟩ := run_session_cursor_eq lbl session c f hc hts
    have hpos' : ∀ g ∈ fs, ∀ l ∈ g, ∀ t : ℚ, line_ts l = some t → t ≠ 0 :=
      fun g hg => hpos g (List.mem_cons_of_mem _ hg)
    obtain ⟨h2, h2ne⟩ := ih (run_session lbl session c f).2 h1ne hpos'
    refine ⟨?_, h2ne⟩
    show (run_sessions lbl session (run_session lbl session c f).2 fs).2 = _
    rw [h2, runs_processed, fold_max_append, ← h1]

/-- C4: re-running the Session-Log adapter when the session file contains no
record with timestamp strictly greater than the stored cursor emits zero new
events and leaves the cursor at its value; moreover a run never persists the
cursor value 0 (so a stored cursor is always nonzero, justifying the `t ≠ 0`
side condition on the stored cursor). -/
theorem C4_rerun_emits_nothing (lbl session : String) (lines : List SessionLine)
    (t : ℚ) (ht : t ≠ 0)
    (hle : ∀ l ∈ lines, ∀ u : ℚ, line_ts l = some u → u ≤ t) :
    (process_jsonl lines (some t) lbl session).1 = [] ∧
    (run_session lbl session (some t) lines).2 = some t ∧
    (∀ (c : Option ℚ) (f : List SessionLine), c ≠ some 0 →
      (run_session lbl session c f).2 ≠ some 0) := by
  have htq : qTruthy (some t) = true := by simp [qTruthy, ht]
  have hemit : emitted_ts (some t) lines = [] := by
    refine List.filterMap_eq_nil_iff.mpr ?_
    intro l hl
    cases l with
    | noise => rfl
    | msg ts? cost inp outp cr cw model =>
      cases ts? with
      | none => rfl
      | some u =>
        have hu : u ≤ t := hle _ hl u rfl
        by_cases hcost : cost = 0 <;> simp [emit_ts, hcost, htq, hu]
  refine ⟨?_, ?_, ?_⟩
  · have hlen : (process_jsonl lines (some t) lbl session).1.length
        = (emitted_ts (some t) lines).length :=
      pjAux_len (some t) lbl session lines (some t)
    rw [hemit] at hlen
    exact List.length_eq_zero.mp hlen
  · obtain ⟨heq, _⟩ := run_session_cursor_eq lbl session (some t) lines
      (by simpa using ht) (by rw [hemit]; simp)
    rw [heq, hemit]
    rfl
  · intro c f hc
    unfold run_session
    dsimp only
    by_cases hq : qTruthy (process_jsonl f c lbl session).2 = true
    · rw [if_pos hq]
      intro h0
      rw [h0] at hq
      simp [qTruthy] at hq
    · rw [if_neg hq]
      exact hc

/-- A session file on which nothing is newer than the stored cursor 5. -/
def c4_lines : List SessionLine :=
  [SessionLine.msg (some 5) 2 0 0 0 0 none, SessionLine.noise,
   SessionLine.msg (some 3) 1 0 0 0 0 none]

/-- Witness for C4: with cursor 5 over a file whose records have timestamps 5
and 3, the re-run emits zero events and keeps the cursor at 5. -/
theorem C4_rerun_emits_nothing_witness :
    (process_jsonl c4_lines (some 5) "L" "S").1 = [] ∧
    (run_session "L" "S" (some 5) c4_lines).2 = some 5 := by
  have h := C4_rerun_emits_nothing "L" "S" c4_lines 5 (by norm_num) ?_
  · exact ⟨h.1, h.2.1⟩
  · intro l hl u hu
    fin_cases hl <;> simp_all [line_ts, c4_lines] <;> rw [← hu] <;> norm_num

/-- C5 (amended): provided every record timestamp in the session files is
nonzero, after any sequence of adapter runs starting from no cursor the
persisted cursor is absent when no record was ever processed and otherwise
equals the maximum timestamp among all records ever processed; the cursor
trace is non-decreasing across runs; and the number of emitted events equals
the number of processed records. -/
theorem C5_cursor_high_water_amended (lbl session : String)
    (files : List (List SessionLine))
    (hpos : ∀ f ∈ files, ∀ l ∈ f, ∀ t : ℚ, line_ts l = some t → t ≠ 0) :
    (runs_processed lbl session none files = [] →
      (run_sessions lbl session none files).2 = none) ∧
    (runs_processed lbl session none files ≠ [] →
      ∃ x, (run_sessions lbl session none files).2 = some x ∧
        x ∈ runs_processed lbl session none files ∧
        ∀ t ∈ runs_processed lbl session none files, t ≤ x) ∧
    List.Chain' cursor_le (run_cursors lbl session none files) ∧
    (run_sessions lbl session none files).1.length
      = (runs_processed lbl session none files).length := by
  obtain ⟨hmain, _⟩ := runs_cursor_spec lbl session files none (by simp) hpos
  refine ⟨?_, ?_, run_cursors_chain lbl session files none,
    run_sessions_len lbl session files none⟩
  · intro hP
    rw [hmain, hP]
    rfl
  · intro hP
    cases hfold : fold_max none (runs_processed lbl session none files) with
    | none =>
      exact absurd ((fold_max_spec _ none).1 hfold).2 hP
    | some v =>
      obtain ⟨hmem, _, hall⟩ := (fold_max_spec _ none).2 v hfold
      refine ⟨v, by rw [hmain, hfold], ?_, hall⟩
      rcases hmem with h | h
      · exact absurd h (by simp)
      · exact h

/-- A session file holding a single cost-bearing record at Unix timestamp
exactly 0. -/
def c5_file : List (List SessionLine) :=
  [[SessionLine.msg (some 0) 1 0 0 0 0 none]]

/-- Counterexample to C5 as stated: one run over a file with a single
cost-bearing record at timestamp 0 processes that record (the processed list
is [0]), yet the persisted cursor remains absent — not the maximum processed
timestamp 0 — because `if new_max_ts:` treats the float 0.0 as falsy. -/
theorem C5_counterexample :
    runs_processed "L" "S" none c5_file = [0] ∧
    (run_sessions "L" "S" none c5_file).2 = none ∧
    (run_sessions "L" "S" none c5_file).2 ≠ some 0 := by
  refine ⟨by decide, by decide, by decide⟩

/-- Two adapter runs for the C5 witness: one record at timestamp 3, then a
file with no new records. -/
def c5w_files : List (List SessionLine) :=
  [[SessionLine.msg (some 3) 1 0 0 0 0 none], [SessionLine.noise]]

/-- Witness for C5 (amended): after the two runs the processed records are
exactly [3] and the persisted cursor is 3, their maximum. -/
theorem C5_cursor_high_water_amended_witness :
    runs_processed "L" "S" none c5w_files = [3] ∧
    (run_sessions "L" "S" none c5w_files).2 = some 3 := by
  have hp : runs_processed "L" "S" none c5w_files = [3] := by decide
  have h := C5_cursor_high_water_amended "L" "S" c5w_files ?_
  · obtain ⟨x, hx, hmem, _⟩ := h.2.1 (by rw [hp]; simp)
    rw [hp] at hmem
    have hx3 : x = 3 := by simpa using hmem
    exact ⟨hp, by rw [hx, hx3]⟩
  · intro f hf l hl t hlt
    fin_cases hf <;> fin_cases hl <;> simp_all [line_ts, c5w_files] <;>
      rw [← hlt] <;> norm_num

end CostPilot
